import Mathlib

/-!
Verification development for the respRT pipeline.

The Python sources are shallowly embedded: timestamps and forces become
rationals (`ℚ`), nullable values become `Option ℚ`, raised exceptions become
`Except String`.  Every definition follows the corresponding source function;
comments point at the file and behaviour being modelled.
-/

set_option allowUnsafeReducibility true
attribute [semireducible] Rat.add Rat.mul Rat.inv Rat.sub Rat.div Rat.neg

/-- Python float modulo `a % b` for a positive divisor `b`: the result takes
the sign of the divisor, i.e. `a - b * ⌊a / b⌋`. -/
def pymod (a b : ℚ) : ℚ := a - b * ⌊a / b⌋

/-- Python `int()` applied to a float: truncation toward zero. -/
def pyInt (q : ℚ) : ℤ := if 0 ≤ q then ⌊q⌋ else ⌈q⌉

/-! ## Timestamp Reconciler (src/recon.py)

A `RawEvent` is one row of an RT CSV after `pd.to_datetime(..., errors="coerce")`:
each of the three timestamp columns is either a parsed instant (seconds, `ℚ`)
or null (`none`). -/

structure RawEvent where
  sched : Option ℚ
  actual : Option ℚ
  response : Option ℚ
  deriving Repr, DecidableEq

instance : Inhabited RawEvent := ⟨⟨none, none, none⟩⟩

/-- `onset_delta = actual_onset_timestamp_utc - scheduled_timestamp_utc` in
seconds; null whenever either operand is null (NaT arithmetic). -/
def onsetDelta (e : RawEvent) : Option ℚ :=
  match e.actual, e.sched with
  | some a, some s => some (a - s)
  | _, _ => none

/-- Absolute value on `ℚ`, written out so that it evaluates by kernel
reduction. -/
def absQ (q : ℚ) : ℚ := if q < 0 then -q else q

/-- `onset_ok = onset_delta.notna() & onset_delta.abs().lt(MAX_ONSET_DEVIATION)`
with `MAX_ONSET_DEVIATION = 1.0`. -/
def onsetOk (e : RawEvent) : Bool :=
  match onsetDelta e with
  | some d => decide (absQ d < 1)
  | none => false

/-- Insertion of an element into a sorted list of rationals. -/
def insertSorted (a : ℚ) : List ℚ → List ℚ
  | [] => [a]
  | b :: l => if a ≤ b then a :: b :: l else b :: insertSorted a l

/-- Ascending insertion sort on rationals. -/
def sortQ : List ℚ → List ℚ
  | [] => []
  | a :: l => insertSorted a (sortQ l)

/-- `pandas.Series.median()`: sort ascending; middle element for odd length,
mean of the two middle elements for even length. -/
def medianQ (l : List ℚ) : ℚ :=
  let s := sortQ l
  let n := s.length
  if n % 2 = 1 then s.getD (n / 2) 0
  else (s.getD (n / 2 - 1) 0 + s.getD (n / 2) 0) / 2

/-- The series `onset_delta[onset_ok]`: deltas of the valid-onset events, in
batch order. -/
def validDeltas (events : List RawEvent) : List ℚ :=
  events.filterMap fun e => if onsetOk e then onsetDelta e else none

/-- One output row of `reconstruct_rt_csv`: the derived columns appended to the
event. -/
structure ReconEvent where
  reconOnset : Option ℚ
  rtSeconds : Option ℚ
  onsetReconstructed : Bool
  latencyUsed : ℚ
  deriving Repr, DecidableEq

instance : Inhabited ReconEvent := ⟨⟨none, none, false, 0⟩⟩

/-- One row of the reconstruction: keep a valid onset, otherwise rebuild it as
`scheduled + latency` (null propagates), then recompute
`RT = response - reconstructed_onset` with no clamping. -/
def reconRow (latency : ℚ) (e : RawEvent) : ReconEvent :=
  let ro := if onsetOk e then e.actual else e.sched.map fun s => s + latency
  { reconOnset := ro
    rtSeconds := match e.response, ro with
      | some r, some v => some (r - v)
      | _, _ => none
    onsetReconstructed := !(onsetOk e)
    latencyUsed := latency }

/-- `reconstruct_rt_csv` (src/recon.py lines 22-65): raises `ValueError` when no
event has a valid onset; otherwise reconstructs every onset with the median
latency of the valid trials and recomputes RT with no clamping. -/
def reconstructRtCsv (events : List RawEvent) : Except String (List ReconEvent) :=
  if events.countP onsetOk = 0 then
    .error "No valid onset timestamps available to estimate audio latency."
  else
    .ok (events.map (reconRow (medianQ (validDeltas events))))

/-- The rows of a successful reconstruction (empty list in the error case only
so statements can name the output without an existential). -/
def reconOutput (events : List RawEvent) : List ReconEvent :=
  match reconstructRtCsv events with
  | .ok out => out
  | .error _ => []

/-- Whether an `Except` computation raised. -/
def isError {ε α : Type} : Except ε α → Bool
  | .error _ => true
  | .ok _ => false

instance {ε α : Type} [DecidableEq ε] [DecidableEq α] : DecidableEq (Except ε α) := fun x y =>
  match x, y with
  | .ok a, .ok b =>
      if h : a = b then .isTrue (by rw [h]) else .isFalse (by intro hc; cases hc; exact h rfl)
  | .error a, .error b =>
      if h : a = b then .isTrue (by rw [h]) else .isFalse (by intro hc; cases hc; exact h rfl)
  | .ok _, .error _ => .isFalse (by intro hc; cases hc)
  | .error _, .ok _ => .isFalse (by intro hc; cases hc)

/-- `batch_reconstruct` (src/recon.py lines 68-89): raises `FileNotFoundError`
when the directory holds no CSV; otherwise every file is processed inside a
`try/except` that logs the failure and moves on, so each file yields either its
reconstructed rows or nothing. -/
def batchReconstruct (files : List (List RawEvent)) :
    Except String (List (Option (List ReconEvent))) :=
  if files.isEmpty then .error "No CSV files found"
  else .ok (files.map fun f =>
    match reconstructRtCsv f with
    | .ok out => some out
    | .error _ => none)

/-! ## Extremum detection (scipy.signal.find_peaks, prominence filter)

`find_peaks(x, prominence=0.5)` first collects local maxima (midpoints of flat
plateaus) with `_local_maxima_1d`, then keeps those whose prominence — computed
by `_peak_prominences` with unrestricted window — is at least `0.5`. -/

/-- Computable minimum on `ℚ`. -/
def minQ (a b : ℚ) : ℚ := if a ≤ b then a else b

/-- Computable maximum on `ℚ`. -/
def maxQ (a b : ℚ) : ℚ := if a ≤ b then b else a

/-- Inner scan of `_local_maxima_1d`: starting at `j`, advance while the sample
equals the candidate height `v` and the index stays below `iMax`. -/
def scanAhead (x : List ℚ) (iMax : Nat) (v : ℚ) : Nat → Nat → Nat
  | 0, j => j
  | fuel + 1, j => if j < iMax ∧ x.getD j 0 = v then scanAhead x iMax v fuel (j + 1) else j

/-- Main scan of `_local_maxima_1d` over interior indices `1 ≤ i < iMax`: on a
strictly rising edge, skip the plateau; if the signal then falls, record the
plateau midpoint and resume after the plateau, else advance by one. The fuel
argument bounds the recursion; `x.length + 1` steps always suffice. -/
def lmAux (x : List ℚ) (iMax : Nat) : Nat → Nat → List Nat
  | 0, _ => []
  | fuel + 1, i =>
    if i < iMax then
      if x.getD (i - 1) 0 < x.getD i 0 then
        let iA := scanAhead x iMax (x.getD i 0) x.length (i + 1)
        if x.getD iA 0 < x.getD i 0 then
          ((i + (iA - 1)) / 2) :: lmAux x iMax fuel (iA + 1)
        else lmAux x iMax fuel (i + 1)
      else lmAux x iMax fuel (i + 1)
    else []

/-- All local maxima (plateau midpoints) of a signal, as in `_local_maxima_1d`:
endpoints are never peaks. -/
def localMaxima (x : List ℚ) : List Nat := lmAux x (x.length - 1) (x.length + 1) 1

/-- Left base search of `_peak_prominences`: walk left from the peak while
samples do not exceed the peak height, tracking the running minimum. -/
def promLeft (x : List ℚ) (xp : ℚ) : Nat → Nat → ℚ → ℚ
  | 0, _, m => m
  | fuel + 1, i, m =>
    if 0 < i ∧ x.getD i 0 ≤ xp then promLeft x xp fuel (i - 1) (minQ m (x.getD (i - 1) 0))
    else m

/-- Right base search of `_peak_prominences`, mirror image of `promLeft`. -/
def promRight (x : List ℚ) (xp : ℚ) (iMax : Nat) : Nat → Nat → ℚ → ℚ
  | 0, _, m => m
  | fuel + 1, i, m =>
    if i < iMax ∧ x.getD i 0 ≤ xp then promRight x xp iMax fuel (i + 1) (minQ m (x.getD (i + 1) 0))
    else m

/-- Prominence of a peak: its height over the higher of its two base minima. -/
def prominence (x : List ℚ) (p : Nat) : ℚ :=
  x.getD p 0 -
    maxQ (promLeft x (x.getD p 0) (p + 1) p (x.getD p 0))
      (promRight x (x.getD p 0) (x.length - 1) x.length p (x.getD p 0))

/-- `find_peaks(x, prominence=0.5)[0]`: local maxima with prominence `≥ 0.5`. -/
def findPeaksProm (x : List ℚ) : List Nat :=
  (localMaxima x).filter fun p => decide ((1 : ℚ) / 2 ≤ prominence x p)

/-! ## Phase Assigner Variant A (`compute_belt_phase`, src/process_data.py 44-80) -/

/-- `np.interp(x, [x0, x1], [y0, y1])` with `x0 < x1`: clamp outside the table,
interpolate linearly inside; the value at `x1` itself comes from the right
endpoint. -/
def npInterp2 (x x0 x1 y0 y1 : ℚ) : ℚ :=
  if x < x0 then y0 else if x1 ≤ x then y1 else y0 + (x - x0) * (y1 - y0) / (x1 - x0)

/-- `np.interp(x, [a, a], [f0, f1])` against a degenerate two-point table:
numpy's binary search returns the last slot for any `x ≥ a`, so the result is
`f0` below `a` and `f1` from `a` upward. -/
def npInterpDup (x a f0 f1 : ℚ) : ℚ := if x < a then f0 else f1

/-- `diff = (90 - 270) % 360` from line 57, computed with Python integer
modulo semantics (`Int.emod` is nonnegative for a positive divisor). -/
def wrappedDiff : ℤ := (90 - 270) % 360

/-- `[c for c in crests if c > tr][0]`, when it exists. -/
def firstAfter (l : List Nat) (k : Nat) : Option Nat := (l.filter fun c => k < c).head?

/-- `(270 + np.interp(t[i], [t[tr], t[C]], [0, diff])) % 360` for one sample of
a trough→crest segment. -/
def tcFormula (t : List ℚ) (tr C i : Nat) : ℚ :=
  pymod (270 + npInterp2 (t.getD i 0) (t.getD tr 0) (t.getD C 0) 0 (wrappedDiff : ℚ)) 360

/-- One iteration of the trough→crest loop: find the first crest after `tr` and
overwrite the slice `phase[tr:C+1]`. -/
def writeTC (t : List ℚ) (crests : List Nat) (p : List ℚ) (tr : Nat) : List ℚ :=
  match firstAfter crests tr with
  | none => p
  | some C => (List.range p.length).map fun i =>
      if tr ≤ i ∧ i ≤ C then tcFormula t tr C i else p.getD i 0

/-- The whole trough→crest loop (lines 52-58), troughs taken in list order. -/
def troughCrestPass (t : List ℚ) (troughs crests : List Nat) (p : List ℚ) : List ℚ :=
  troughs.foldl (writeTC t crests) p

/-- `np.interp(t[i], [t[C], t[T]], [90, 270])` for one sample of a
crest→trough segment (no modulo in the source here). -/
def ctFormula (t : List ℚ) (C T i : Nat) : ℚ :=
  npInterp2 (t.getD i 0) (t.getD C 0) (t.getD T 0) 90 270

/-- One iteration of the crest→trough loop: first trough after `C`, overwrite
`phase[C:T+1]`. -/
def writeCT (t : List ℚ) (troughs : List Nat) (p : List ℚ) (C : Nat) : List ℚ :=
  match firstAfter troughs C with
  | none => p
  | some T => (List.range p.length).map fun i =>
      if C ≤ i ∧ i ≤ T then ctFormula t C T i else p.getD i 0

/-- The whole crest→trough loop (lines 61-66). -/
def crestTroughPass (t : List ℚ) (troughs crests : List Nat) (p : List ℚ) : List ℚ :=
  crests.foldl (writeCT t troughs) p

/-- `np.where(np.diff(phase) != 0)[0]`: indices whose successor differs. -/
def diffNZ (p : List ℚ) : List Nat :=
  (List.range (p.length - 1)).filter fun i => decide (p.getD (i + 1) 0 ≠ p.getD i 0)

/-- `nz[0]` — the first index of a nonzero phase difference. -/
def firstDefIdx (p : List ℚ) : Nat := (diffNZ p).headD 0

/-- `nz[-1]` — the last index of a nonzero phase difference. -/
def lastDefIdx (p : List ℚ) : Nat := (diffNZ p).getLastD 0

/-- Edge fill (lines 68-78).  When some phase difference is nonzero, the head
slice `phase[:first_def]` and the tail slice `phase[last_def:]` are overwritten
through `np.interp` against the degenerate tables
`[t[first_def], t[first_def]]` / `[t[last_def], t[last_def]]`.  The head
assignment runs first in the source, but since `first_def ≤ last_def` it never
touches `phase[last_def]`, so reading the original `p` here is faithful; on the
slice overlap (only possible at `first_def = last_def`, an index belonging to
the tail slice) the tail write is the one that lands last in the source, which
the branch order below reproduces. -/
def edgeFill (t p : List ℚ) : List ℚ :=
  if diffNZ p = [] then p
  else
    (List.range p.length).map fun i =>
      if i < firstDefIdx p then
        npInterpDup (t.getD i 0) (t.getD (firstDefIdx p) 0)
          (pymod (p.getD (firstDefIdx p) 0 - 180) 360) (p.getD (firstDefIdx p) 0)
      else if lastDefIdx p ≤ i then
        npInterpDup (t.getD i 0) (t.getD (lastDefIdx p) 0)
          (p.getD (lastDefIdx p) 0) (pymod (p.getD (lastDefIdx p) 0 + 180) 360)
      else p.getD i 0

/-- The phase array after the two interpolation loops, before edge fill. -/
def interPhase (t x : List ℚ) : List ℚ :=
  crestTroughPass t (findPeaksProm (x.map fun v => -v)) (findPeaksProm x)
    (troughCrestPass t (findPeaksProm (x.map fun v => -v)) (findPeaksProm x)
      (List.replicate x.length 0))

/-- `compute_belt_phase(t, x)`: troughs and crests from `find_peaks` with
prominence `0.5`, phase initialised to zero, the two interpolation loops, the
edge fill, and the final `% 360`. -/
def computeBeltPhase (t x : List ℚ) : List ℚ :=
  (edgeFill t (interPhase t x)).map fun v => pymod v 360

/-- `np.where((phase >= 270) | (phase <= 90), 'inhalation', 'exhalation')`,
applied identically to belt samples (line 117) and mapped events (line 122). -/
def phaseLabel (p : ℚ) : String :=
  if 270 ≤ p ∨ p ≤ 90 then "inhalation" else "exhalation"

/-! ## Event Phase Mapper (`interp1d(..., kind='nearest',
fill_value='extrapolate')`, src/process_data.py 120-121) -/

/-- The half-points `(ts[k] + ts[k+1]) / 2` between consecutive belt samples. -/
def midpointsOf (ts : List ℚ) : List ℚ :=
  (List.range (ts.length - 1)).map fun k => (ts.getD k 0 + ts.getD (k + 1) 0) / 2

/-- Nearest-neighbour interpolation: scipy takes
`searchsorted(midpoints, x, side='left')`, i.e. the number of half-points
strictly below `x` (these agree for the sorted time axis the pipeline feeds
in), and returns that sample's value; out-of-range queries therefore land on
the first or last sample. -/
def nearestInterp (ts vs : List ℚ) (x : ℚ) : ℚ :=
  vs.getD ((midpointsOf ts).countP fun m => decide (m < x)) 0

/-! ## Per-Participant Merge Driver (src/process_data.py 85-130) -/

/-- `rolling(window=5, center=True, min_periods=1).mean()`: the centred window
`[i-2, i+2]` clipped to the array, averaged. -/
def smoothForce (xs : List ℚ) : List ℚ :=
  (List.range xs.length).map fun i =>
    let lo := i - 2
    let hi := min (xs.length - 1) (i + 2)
    let win := (List.range (hi + 1 - lo)).map fun k => xs.getD (lo + k) 0
    win.foldl (· + ·) 0 / (win.length : ℚ)

/-- `estimate_peak_distance` (lines 32-39) on belt records `(t_utc, force)`.
An empty frame makes `iloc[-1]` raise `IndexError`.  With zero duration or a
zero expected breathing rate the float quotient is infinite (numpy emits a
warning, not an error) and the final `int(...)` raises `OverflowError`; since
`ℚ` has no infinities those two branches are written out explicitly.
Otherwise the value is `int(0.7 * (n / duration) / (ebpm / 60))`, truncated
toward zero. -/
def estimatePeakDistance (ebpm : ℚ) (belt : List (ℚ × ℚ)) : Except String ℤ :=
  if belt.isEmpty then
    .error "IndexError: single positional indexer is out-of-bounds"
  else if (belt.getLastD (0, 0)).1 - (belt.headD (0, 0)).1 = 0 ∨ ebpm = 0 then
    .error "OverflowError: cannot convert float infinity to integer"
  else
    .ok (pyInt (7 / 10 * (((belt.length : ℚ) /
      ((belt.getLastD (0, 0)).1 - (belt.headD (0, 0)).1)) / (ebpm / 60))))

/-- The per-participant columns produced by the merge driver. -/
structure POut where
  beltPhase : List ℚ
  beltLabel : List String
  rtPhase : List ℚ
  rtLabel : List String
  deriving Repr, DecidableEq

/-- The body of the main loop for one participant whose RT and belt files both
exist: auto-tune the peak distance (the result is only printed, never passed
on), smooth the force, compute the belt phase and labels, and map each RT
response timestamp to its nearest belt phase.  An exception anywhere —
including inside `estimate_peak_distance` — propagates, because the loop body
has no handler. -/
def processOne (ebpm : ℚ) (rtTimes : List ℚ) (belt : List (ℚ × ℚ)) : Except String POut :=
  match estimatePeakDistance ebpm belt with
  | .error e => .error e
  | .ok _ =>
    let ts := belt.map Prod.fst
    let ph := computeBeltPhase ts (smoothForce (belt.map Prod.snd))
    let rtPh := rtTimes.map (nearestInterp ts ph)
    .ok { beltPhase := ph, beltLabel := ph.map phaseLabel,
          rtPhase := rtPh, rtLabel := rtPh.map phaseLabel }

/-- The participant loop (lines 91-130): a missing RT file or belt file is
skipped with a log line and the loop continues; any error raised while
processing a present pair is uncaught and aborts the whole run. -/
def mainLoop (ebpm : ℚ) :
    List (Option (List ℚ) × Option (List (ℚ × ℚ))) → Except String (List POut)
  | [] => .ok []
  | (none, _) :: rest => mainLoop ebpm rest
  | (some _, none) :: rest => mainLoop ebpm rest
  | (some rt, some belt) :: rest =>
    match processOne ebpm rt belt with
    | .error e => .error e
    | .ok out =>
      match mainLoop ebpm rest with
      | .error e => .error e
      | .ok outs => .ok (out :: outs)

/-! ## Cleaning pass and master table (src/process_data.py 135-198) -/

/-- One CSV cell: a value or a null. -/
abbrev Cell := Option String

/-- One CSV row. -/
abbrev Row := List Cell

/-- One per-participant merged table. -/
abbrev Table := List Row

/-- `df.isna().any(axis=1)` for one row. -/
def hasNull (r : Row) : Bool := r.any fun c => c.isNone

/-- `df.dropna()`: the rows kept by the cleaning pass. -/
def cleanKept (t : Table) : Table := t.filter fun r => !hasNull r

/-- The rows the cleaning pass removes and writes to the audit log. -/
def cleanDropped (t : Table) : Table := t.filter hasNull

/-- `df_clean['participant_id'] = pid` for a table missing that column. -/
def addPid (pid : String) (r : Row) : Row := r ++ [some pid]

/-- `clean_and_create_master` followed by `create_master_file`: clean each
per-participant table, tag it with its participant id, and concatenate. -/
def masterOf (files : List (String × Table)) : Table :=
  (files.map fun pf => (cleanKept pf.2).map (addPid pf.1)).flatten

/-- The audit log: every dropped row, in full, per source file. -/
def auditLog (files : List (String × Table)) : Table :=
  (files.map fun pf => cleanDropped pf.2).flatten

/-! ## Theorems -/

theorem pymod_eq_fract (a b : ℚ) (hb : b ≠ 0) : pymod a b = b * Int.fract (a / b) := by
  unfold pymod Int.fract
  rw [mul_sub, mul_div_cancel₀ a hb]

theorem pymod_nonneg (a b : ℚ) (hb : 0 < b) : 0 ≤ pymod a b := by
  rw [pymod_eq_fract a b hb.ne']
  exact mul_nonneg hb.le (Int.fract_nonneg _)

theorem pymod_lt (a b : ℚ) (hb : 0 < b) : pymod a b < b := by
  rw [pymod_eq_fract a b hb.ne']
  calc b * Int.fract (a / b) < b * 1 := (mul_lt_mul_left hb).mpr (Int.fract_lt_one _)
    _ = b := mul_one b

theorem pymod_eq_self (a b : ℚ) (h0 : 0 ≤ a) (hab : a < b) : pymod a b = a := by
  have hb : 0 < b := lt_of_le_of_lt h0 hab
  have hfloor : ⌊a / b⌋ = 0 := by
    rw [Int.floor_eq_zero_iff]
    exact ⟨div_nonneg h0 hb.le, by rw [div_lt_one hb]; exact hab⟩
  unfold pymod
  rw [hfloor]
  simp

theorem pymod_idem (a b : ℚ) (hb : 0 < b) : pymod (pymod a b) b = pymod a b :=
  pymod_eq_self _ _ (pymod_nonneg a b hb) (pymod_lt a b hb)

/-- C1: in a batch with at least one valid-onset event, the reconciler keeps
every valid onset unchanged, rebuilds every invalid onset as
`scheduled_time + audio_latency_used_seconds` where the latency is the median
`onset_delta` of the valid-onset events of that batch, and recomputes
`reconstructed_rt_seconds = response_time - reconstructed_onset_time` with no
clamping. -/
theorem reconciler_valid_invalid_onsets (events : List RawEvent) (i : Nat)
    (hi : i < events.length) (h : 0 < events.countP onsetOk) :
    reconstructRtCsv events = Except.ok (reconOutput events) ∧
    (reconOutput events).length = events.length ∧
    ((reconOutput events).getD i default).latencyUsed = medianQ (validDeltas events) ∧
    ((reconOutput events).getD i default).reconOnset =
      (if onsetOk (events.getD i default) then (events.getD i default).actual
       else (events.getD i default).sched.map fun s => s + medianQ (validDeltas events)) ∧
    ((reconOutput events).getD i default).onsetReconstructed = !(onsetOk (events.getD i default)) ∧
    ((reconOutput events).getD i default).rtSeconds =
      (match (events.getD i default).response, ((reconOutput events).getD i default).reconOnset with
       | some r, some v => some (r - v)
       | _, _ => none) := by
  have hne : events.countP onsetOk ≠ 0 := Nat.pos_iff_ne_zero.mp h
  have hok : reconstructRtCsv events =
      Except.ok (events.map (reconRow (medianQ (validDeltas events)))) := by
    unfold reconstructRtCsv
    rw [if_neg hne]
  have hout : reconOutput events = events.map (reconRow (medianQ (validDeltas events))) := by
    unfold reconOutput
    rw [hok]
  have hgd : (reconOutput events).getD i default =
      reconRow (medianQ (validDeltas events)) (events.getD i default) := by
    rw [hout, List.getD_eq_getElem _ _ (by simpa using hi), List.getD_eq_getElem _ _ hi,
      List.getElem_map]
  refine ⟨by rw [hok, hout], by rw [hout, List.length_map], ?_, ?_, ?_, ?_⟩
  · rw [hgd]; rfl
  · rw [hgd]; rfl
  · rw [hgd]; rfl
  · rw [hgd]; rfl

/-- Witness for C1: with the batch
`[(sched 10, actual 10.05, resp 10.4), (sched 20, actual null, resp 21)]`
the valid first event keeps its onset (RT `0.35` as in the spec scenario) and
the invalid second event gets `20 + median [0.05] = 401/20`. -/
theorem reconciler_valid_invalid_onsets_witness :
    ((reconOutput [⟨some 10, some (10 + 1/20), some (10 + 2/5)⟩,
        ⟨some 20, none, some 21⟩]).getD 1 default).reconOnset = some (401 / 20) ∧
    ((reconOutput [⟨some 10, some (10 + 1/20), some (10 + 2/5)⟩,
        ⟨some 20, none, some 21⟩]).getD 0 default).rtSeconds = some (7 / 20) := by
  constructor
  · exact ((reconciler_valid_invalid_onsets
      [⟨some 10, some (10 + 1/20), some (10 + 2/5)⟩, ⟨some 20, none, some 21⟩]
      1 (by decide) (by decide)).2.2.2.1).trans (by decide)
  · exact ((reconciler_valid_invalid_onsets
      [⟨some 10, some (10 + 1/20), some (10 + 2/5)⟩, ⟨some 20, none, some 21⟩]
      0 (by decide) (by decide)).2.2.2.2.2).trans (by decide)

/-- C3: `reconstruct_rt_csv` raises its insufficient-data error exactly when no
event of the batch has a valid onset (`onset_delta` non-null and within
`MAX_ONSET_DEVIATION`); raising means no reconciled rows are produced. -/
theorem insufficient_data_iff (events : List RawEvent) :
    isError (reconstructRtCsv events) = true ↔ events.countP onsetOk = 0 := by
  unfold reconstructRtCsv
  by_cases h : events.countP onsetOk = 0
  · simp [h, isError]
  · simp [h, isError]

/-- Witness for C3: a one-event batch whose only onset is null makes the
reconciler raise. -/
theorem insufficient_data_iff_witness :
    isError (reconstructRtCsv [⟨some 0, none, some 1⟩]) = true :=
  (insufficient_data_iff [⟨some 0, none, some 1⟩]).mpr (by decide)

/-- C6 counterexample: a batch of two files where the first has no valid onset.
`batch_reconstruct` catches the per-file error and still writes the second
file's reconstruction, so the run does *not* terminate without partial output. -/
theorem batch_not_fatal_counterexample :
    batchReconstruct [[⟨some 0, none, some 1⟩],
        [⟨some 10, some (10 + 1/20), some (10 + 2/5)⟩]] =
      Except.ok [none, some [⟨some (10 + 1/20), some (7/20), false, 1/20⟩]] ∧
    isError (reconstructRtCsv [⟨some 0, none, some 1⟩]) = true := by
  constructor <;> decide

/-- C6 (amended): in the batch driver the per-file `try/except` catches a
latency-estimation failure; the failing file yields no output row while every
other file of the run is still processed. -/
theorem batch_continues_after_failure (files : List (List RawEvent)) (h : files ≠ []) :
    batchReconstruct files =
      Except.ok (files.map fun f =>
        match reconstructRtCsv f with
        | .ok out => some out
        | .error _ => none) ∧
    ∀ (i : Nat) (f : List RawEvent), files[i]? = some f → f.countP onsetOk = 0 →
      (files.map fun f =>
        match reconstructRtCsv f with
        | .ok out => some out
        | .error _ => none)[i]? = some none := by
  constructor
  · unfold batchReconstruct
    rw [if_neg (by simpa using h)]
  · intro i f hf hcount
    rw [List.getElem?_map, hf]
    have herr : reconstructRtCsv f =
        .error "No valid onset timestamps available to estimate audio latency." := by
      unfold reconstructRtCsv
      rw [if_pos hcount]
    simp [herr]

/-- Witness for C6 (amended): the driver applied to a failing file followed by
a clean file returns `[none, some rows]`. -/
theorem batch_continues_after_failure_witness :
    batchReconstruct [[⟨some 5, none, some 6⟩],
        [⟨some 1, some (3/2), some 2⟩]] =
      Except.ok [none, some [⟨some (3/2), some (1/2), false, 1/2⟩]] :=
  ((batch_continues_after_failure
      [[⟨some 5, none, some 6⟩], [⟨some 1, some (3/2), some 2⟩]]
      (by decide)).1).trans (by decide)

/-- Sum of the lengths of a Boolean partition of a list. -/
theorem length_filter_not_add {α : Type} (p : α → Bool) (l : List α) :
    (l.filter fun a => !p a).length + (l.filter p).length = l.length := by
  induction l with
  | nil => rfl
  | cons a l ih => by_cases h : p a <;> simp [List.filter_cons, h, ← ih] <;> omega

/-- C4: every phase value produced by Variant A lies in `[0, 360)`, and the
categorical label — the same formula for belt samples and mapped RT events —
is `inhalation` exactly when the phase is `≥ 270` or `≤ 90`. -/
theorem variantA_phase_range_and_label (t x : List ℚ) :
    (∀ q ∈ computeBeltPhase t x, 0 ≤ q ∧ q < 360) ∧
    (∀ r : ℚ, phaseLabel r = "inhalation" ↔ (270 ≤ r ∨ r ≤ 90)) := by
  constructor
  · intro q hq
    unfold computeBeltPhase at hq
    obtain ⟨v, -, rfl⟩ := List.mem_map.mp hq
    exact ⟨pymod_nonneg v 360 (by norm_num), pymod_lt v 360 (by norm_num)⟩
  · intro r
    unfold phaseLabel
    by_cases h : 270 ≤ r ∨ r ≤ 90
    · simp [h]
    · simp [h]

/-- Witness for C4: on a flat two-sample signal the phase is `0`, inside the
range, and labelled `inhalation`. -/
theorem variantA_phase_range_and_label_witness :
    ((0 : ℚ) ≤ 0 ∧ (0 : ℚ) < 360) ∧ phaseLabel 0 = "inhalation" :=
  ⟨(variantA_phase_range_and_label [0, 1] [0, 0]).1 0 (by decide),
   ((variantA_phase_range_and_label [0, 1] [0, 0]).2 0).mpr (by norm_num)⟩

/-- C7 counterexample: a degenerate one-sample belt signal aborts the whole
run with the uncaught `OverflowError` — the second, healthy participant is
never processed — although that same participant alone processes fine. -/
theorem degenerate_belt_counterexample :
    mainLoop 16 [(some [1], some [(0, 1)]), (some [1/2], some [(0, 0), (1, 0)])] =
      .error "OverflowError: cannot convert float infinity to integer" ∧
    mainLoop 16 [(some [1/2], some [(0, 0), (1, 0)])] =
      .ok [⟨[0, 0], ["inhalation", "inhalation"], [0], ["inhalation"]⟩] := by
  constructor <;> decide

/-- C7 (amended): an error raised while processing a participant whose two
files are present — e.g. the degenerate-signal failures of
`estimate_peak_distance` on an empty or single-sample belt — is uncaught and
terminates the batch; only a missing RT or belt file is skipped with the loop
continuing. -/
theorem mainLoop_degenerate_fatal_missing_skipped :
    (∀ (ebpm : ℚ) (rt : List ℚ) (belt : List (ℚ × ℚ))
        (rest : List (Option (List ℚ) × Option (List (ℚ × ℚ)))) (m : String),
      processOne ebpm rt belt = .error m →
        mainLoop ebpm ((some rt, some belt) :: rest) = .error m) ∧
    (∀ (ebpm : ℚ) (rt : List ℚ) (s : ℚ × ℚ),
      processOne ebpm rt [s] =
        .error "OverflowError: cannot convert float infinity to integer") ∧
    (∀ (ebpm : ℚ) (rt : List ℚ),
      processOne ebpm rt [] =
        .error "IndexError: single positional indexer is out-of-bounds") ∧
    (∀ (ebpm : ℚ) (b : Option (List (ℚ × ℚ)))
        (rest : List (Option (List ℚ) × Option (List (ℚ × ℚ)))),
      mainLoop ebpm ((none, b) :: rest) = mainLoop ebpm rest) ∧
    (∀ (ebpm : ℚ) (rt : List ℚ)
        (rest : List (Option (List ℚ) × Option (List (ℚ × ℚ)))),
      mainLoop ebpm ((some rt, none) :: rest) = mainLoop ebpm rest) := by
  refine ⟨?_, ?_, ?_, fun _ _ _ => rfl, fun _ _ _ => rfl⟩
  · intro ebpm rt belt rest m h
    unfold mainLoop
    rw [h]
  · intro ebpm rt s
    unfold processOne estimatePeakDistance
    simp [sub_self]
  · intro ebpm rt
    unfold processOne estimatePeakDistance
    simp

/-- Witness for C7 (amended): a single one-sample-belt participant makes the
run abort with the `OverflowError`. -/
theorem mainLoop_degenerate_fatal_missing_skipped_witness :
    mainLoop 16 [(some [1], some [(0, 1)])] =
      .error "OverflowError: cannot convert float infinity to integer" :=
  mainLoop_degenerate_fatal_missing_skipped.1 16 [1] [(0, 1)] [] _
    (mainLoop_degenerate_fatal_missing_skipped.2.1 16 [1] (0, 1))

/-- C10 counterexample: on the same healthy belt (two samples, nonzero
duration), `EXPECTED_BREATHS_PER_MIN = 0` makes the auto-tune step itself
raise (`int()` of an infinite float), while `16` yields the merged output —
so the outputs are not identical for *any* two configuration values. -/
theorem breaths_config_counterexample :
    processOne 0 [1/2] [(0, 0), (1, 0)] =
      .error "OverflowError: cannot convert float infinity to integer" ∧
    processOne 16 [1/2] [(0, 0), (1, 0)] =
      .ok ⟨[0, 0], ["inhalation", "inhalation"], [0], ["inhalation"]⟩ ∧
    processOne 0 [1/2] [(0, 0), (1, 0)] ≠ processOne 16 [1/2] [(0, 0), (1, 0)] := by
  refine ⟨by decide, by decide, by decide⟩

/-- C10 (amended): for a belt signal with nonzero duration and any two
*nonzero* values of `EXPECTED_BREATHS_PER_MIN`, the merge driver's
per-participant output (belt phases, belt labels, mapped event phases and
labels) is identical: the auto-tuned spacing is computed but never passed to
extrema detection or phase assignment. -/
theorem ebpm_noninterference (e1 e2 : ℚ) (rt : List ℚ) (belt : List (ℚ × ℚ))
    (h1 : e1 ≠ 0) (h2 : e2 ≠ 0) (hne : belt ≠ [])
    (hdur : (belt.getLastD (0, 0)).1 - (belt.headD (0, 0)).1 ≠ 0) :
    processOne e1 rt belt = processOne e2 rt belt := by
  have key : ∀ e : ℚ, e ≠ 0 → estimatePeakDistance e belt =
      .ok (pyInt (7 / 10 * (((belt.length : ℚ) /
        ((belt.getLastD (0, 0)).1 - (belt.headD (0, 0)).1)) / (e / 60)))) := by
    intro e he
    unfold estimatePeakDistance
    rw [if_neg (by simp [hne]), if_neg (by push_neg; exact ⟨hdur, he⟩)]
  unfold processOne
  rw [key e1 h1, key e2 h2]

/-- Witness for C10 (amended): `16` and `30` breaths per minute give the same
output on a healthy belt. -/
theorem ebpm_noninterference_witness :
    processOne 16 [1/2] [(0, 0), (1, 0)] = processOne 30 [1/2] [(0, 0), (1, 0)] :=
  ebpm_noninterference 16 30 [1/2] [(0, 0), (1, 0)]
    (by norm_num) (by norm_num) (by decide) (by decide)

/-- C9: the cleaned master table has no null in any cell, and its row count
plus the number of audit-logged dropped rows equals the total row count of the
per-participant merged files. -/
theorem cleaning_no_nulls_and_rowcount (files : List (String × Table)) :
    (∀ r ∈ masterOf files, ∀ c ∈ r, c.isSome = true) ∧
    (masterOf files).length + (auditLog files).length =
      (files.map fun pf => pf.2.length).sum := by
  constructor
  · intro r hr c hc
    unfold masterOf at hr
    obtain ⟨block, hblock, hrb⟩ := List.mem_flatten.mp hr
    obtain ⟨pf, -, rfl⟩ := List.mem_map.mp hblock
    obtain ⟨r0, hr0, rfl⟩ := List.mem_map.mp hrb
    have hkeep : hasNull r0 = false := by
      have h2 := (List.mem_filter.mp hr0).2
      simpa using h2
    rcases List.mem_append.mp hc with hc0 | hc1
    · unfold hasNull at hkeep
      have hno := List.any_eq_false.mp hkeep c hc0
      cases c with
      | none => simp at hno
      | some v => rfl
    · have : c = some pf.1 := by simpa using hc1
      rw [this]
      rfl
  · induction files with
    | nil => rfl
    | cons pf rest ih =>
      have hsplit : (cleanKept pf.2).length + (cleanDropped pf.2).length = pf.2.length := by
        unfold cleanKept cleanDropped
        exact length_filter_not_add hasNull pf.2
      simp only [masterOf, auditLog, List.map_cons, List.flatten_cons, List.length_append,
        List.length_map, List.sum_cons] at *
      omega

/-- Witness for C9: one participant file with one clean and one null row gives
a one-row master, a one-row audit log, and only non-null master cells. -/
theorem cleaning_no_nulls_and_rowcount_witness :
    Option.isSome (some "a") = true ∧
    (masterOf [("P01", [[some "a", some "b"], [none, some "c"]])]).length +
      (auditLog [("P01", [[some "a", some "b"], [none, some "c"]])]).length = 2 :=
  ⟨(cleaning_no_nulls_and_rowcount [("P01", [[some "a", some "b"], [none, some "c"]])]).1
      [some "a", some "b", some "P01"] (by decide) (some "a") (by decide),
   ((cleaning_no_nulls_and_rowcount [("P01", [[some "a", some "b"], [none, some "c"]])]).2).trans
      (by decide)⟩

theorem rangeMap_getD (f : Nat → ℚ) (n i : Nat) (h : i < n) :
    ((List.range n).map f).getD i 0 = f i := by
  rw [List.getD_eq_getElem _ _ (by simpa using h)]
  simp

theorem headD_eq_getD {α : Type} (l : List α) (d : α) : l.headD d = l.getD 0 d := by
  cases l <;> rfl

theorem getLastD_eq_getD {α : Type} (l : List α) (d : α) :
    l.getLastD d = l.getD (l.length - 1) d := by
  rw [List.getLastD_eq_getLast?, List.getLast?_eq_getElem?, List.getD_eq_getElem?_getD]

theorem chain_lt_getD {l : List ℚ} (h : List.Chain' (· < ·) l) {i j : Nat}
    (hij : i < j) (hj : j < l.length) : l.getD i 0 < l.getD j 0 := by
  have hp : List.Pairwise (· < ·) l := List.chain'_iff_pairwise.mp h
  rw [List.getD_eq_getElem _ _ (hij.trans hj), List.getD_eq_getElem _ _ hj]
  exact List.pairwise_iff_getElem.mp hp i j (hij.trans hj) hj hij

theorem chain_le_getD {l : List ℚ} (h : List.Chain' (· < ·) l) {i j : Nat}
    (hij : i ≤ j) (hj : j < l.length) : l.getD i 0 ≤ l.getD j 0 := by
  rcases Nat.eq_or_lt_of_le hij with rfl | hlt
  · exact le_refl _
  · exact (chain_lt_getD h hlt hj).le

theorem getD_mem {α : Type} {l : List α} {i : Nat} (d : α) (h : i < l.length) :
    l.getD i d ∈ l := by
  rw [List.getD_eq_getElem _ _ h]
  exact List.getElem_mem h

/-- C5: for a nonempty, strictly increasing belt time axis, every mapped event
phase is exactly the phase of some belt sample (nearest-neighbour, never a
blend), and an event timestamp before the first or after the last belt sample
receives that boundary sample's phase instead of failing. -/
theorem mapper_nearest_sample_and_boundary (ts vs : List ℚ) (hne : ts ≠ [])
    (hlen : ts.length = vs.length) (ht : List.Chain' (· < ·) ts) :
    (∀ x : ℚ, nearestInterp ts vs x ∈ vs) ∧
    (∀ x : ℚ, x < ts.headD 0 → nearestInterp ts vs x = vs.headD 0) ∧
    (∀ x : ℚ, ts.getLastD 0 < x → nearestInterp ts vs x = vs.getLastD 0) := by
  have hts : 0 < ts.length := List.length_pos.mpr hne
  have hmidlen : (midpointsOf ts).length = ts.length - 1 := by
    unfold midpointsOf
    simp
  have hmem : ∀ m ∈ midpointsOf ts, ∃ k, k < ts.length - 1 ∧
      m = (ts.getD k 0 + ts.getD (k + 1) 0) / 2 := by
    intro m hm
    unfold midpointsOf at hm
    obtain ⟨k, hk, rfl⟩ := List.mem_map.mp hm
    exact ⟨k, List.mem_range.mp hk, rfl⟩
  refine ⟨?_, ?_, ?_⟩
  · intro x
    unfold nearestInterp
    have hk : (midpointsOf ts).countP (fun m => decide (m < x)) < vs.length := by
      have h1 := List.countP_le_length (fun m => decide (m < x)) (l := midpointsOf ts)
      omega
    exact getD_mem 0 hk
  · intro x hx
    unfold nearestInterp
    have hcount : (midpointsOf ts).countP (fun m => decide (m < x)) = 0 := by
      rw [List.countP_eq_zero]
      intro m hm
      obtain ⟨k, hk, rfl⟩ := hmem m hm
      have h1 : ts.getD 0 0 ≤ ts.getD k 0 := chain_le_getD ht (Nat.zero_le k) (by omega)
      have h2 : ts.getD 0 0 < ts.getD (k + 1) 0 :=
        chain_lt_getD ht (Nat.succ_pos k) (by omega)
      rw [headD_eq_getD] at hx
      simp only [decide_eq_true_eq, not_lt]
      linarith
    rw [hcount, headD_eq_getD]
  · intro x hx
    unfold nearestInterp
    have hcount : (midpointsOf ts).countP (fun m => decide (m < x)) =
        (midpointsOf ts).length := by
      rw [List.countP_eq_length]
      intro m hm
      obtain ⟨k, hk, rfl⟩ := hmem m hm
      have h1 : ts.getD k 0 ≤ ts.getD (ts.length - 1) 0 :=
        chain_le_getD ht (by omega) (by omega)
      have h2 : ts.getD (k + 1) 0 ≤ ts.getD (ts.length - 1) 0 :=
        chain_le_getD ht (by omega) (by omega)
      rw [getLastD_eq_getD] at hx
      simp only [decide_eq_true_eq]
      linarith
    rw [hcount, hmidlen, getLastD_eq_getD, hlen]

/-- Witness for C5: times `[0, 1]`, phases `[5, 7]`: an out-of-range query on
each side lands on the boundary phase, and a mid-range query returns a member
of the phase list. -/
theorem mapper_nearest_sample_and_boundary_witness :
    nearestInterp [0, 1] [5, 7] (-1) = 5 ∧ nearestInterp [0, 1] [5, 7] 2 = 7 ∧
    nearestInterp [0, 1] [5, 7] (1/4) ∈ [5, 7] := by
  refine ⟨?_, ?_, ?_⟩
  · exact ((mapper_nearest_sample_and_boundary [0, 1] [5, 7] (by decide) (by decide)
      (by norm_num [List.chain'_cons, List.chain'_singleton])).2.1 (-1) (by decide)).trans
      (by decide)
  · exact ((mapper_nearest_sample_and_boundary [0, 1] [5, 7] (by decide) (by decide)
      (by norm_num [List.chain'_cons, List.chain'_singleton])).2.2 2 (by decide)).trans
      (by decide)
  · exact (mapper_nearest_sample_and_boundary [0, 1] [5, 7] (by decide) (by decide)
      (by norm_num [List.chain'_cons, List.chain'_singleton])).1 (1/4)

theorem writeTC_length (t : List ℚ) (crests : List Nat) (p : List ℚ) (tr : Nat) :
    (writeTC t crests p tr).length = p.length := by
  unfold writeTC
  cases firstAfter crests tr <;> simp

theorem writeCT_length (t : List ℚ) (troughs : List Nat) (p : List ℚ) (C : Nat) :
    (writeCT t troughs p C).length = p.length := by
  unfold writeCT
  cases firstAfter troughs C <;> simp

theorem troughCrestPass_length (t : List ℚ) (troughs crests : List Nat) (p : List ℚ) :
    (troughCrestPass t troughs crests p).length = p.length := by
  unfold troughCrestPass
  induction troughs generalizing p with
  | nil => rfl
  | cons a l ih => rw [List.foldl_cons, ih, writeTC_length]

theorem crestTroughPass_length (t : List ℚ) (troughs crests : List Nat) (p : List ℚ) :
    (crestTroughPass t troughs crests p).length = p.length := by
  unfold crestTroughPass
  induction crests generalizing p with
  | nil => rfl
  | cons a l ih => rw [List.foldl_cons, ih, writeCT_length]

theorem interPhase_length (t x : List ℚ) : (interPhase t x).length = x.length := by
  unfold interPhase
  rw [crestTroughPass_length, troughCrestPass_length, List.length_replicate]

theorem edgeFill_length (t p : List ℚ) : (edgeFill t p).length = p.length := by
  unfold edgeFill
  by_cases h : diffNZ p = [] <;> simp [h]

theorem computeBeltPhase_length (t x : List ℚ) :
    (computeBeltPhase t x).length = x.length := by
  unfold computeBeltPhase
  rw [List.length_map, edgeFill_length, interPhase_length]

theorem diffNZ_mem_lt {p : List ℚ} {i : Nat} (h : i ∈ diffNZ p) : i < p.length - 1 := by
  unfold diffNZ at h
  exact List.mem_range.mp (List.mem_filter.mp h).1

theorem diffNZ_pairwise (p : List ℚ) : List.Pairwise (· < ·) (diffNZ p) := by
  unfold diffNZ
  exact (List.pairwise_lt_range _).filter _

/-- C8: when at least one phase difference is nonzero, every sample strictly
before the first defined transition index receives
`(boundary_phase - 180) % 360` and every sample strictly after the last
defined transition index receives `(boundary_phase + 180) % 360`, where the
boundary phase is the interpolated phase at the respective boundary index. -/
theorem variantA_edge_extrapolation (t x : List ℚ) (hlen : t.length = x.length)
    (ht : List.Chain' (· < ·) t) (hne : diffNZ (interPhase t x) ≠ []) :
    (∀ i : Nat, i < firstDefIdx (interPhase t x) →
      (computeBeltPhase t x).getD i 0 =
        pymod ((interPhase t x).getD (firstDefIdx (interPhase t x)) 0 - 180) 360) ∧
    (∀ i : Nat, lastDefIdx (interPhase t x) < i → i < x.length →
      (computeBeltPhase t x).getD i 0 =
        pymod ((interPhase t x).getD (lastDefIdx (interPhase t x)) 0 + 180) 360) := by
  set p := interPhase t x with hp
  have hplen : p.length = x.length := interPhase_length t x
  have hd0 : 0 < (diffNZ p).length := List.length_pos.mpr hne
  have hfd_mem : firstDefIdx p ∈ diffNZ p := by
    unfold firstDefIdx
    rw [headD_eq_getD]
    exact getD_mem 0 hd0
  have hld_mem : lastDefIdx p ∈ diffNZ p := by
    unfold lastDefIdx
    rw [getLastD_eq_getD]
    exact getD_mem 0 (by omega)
  have hfd_lt : firstDefIdx p < p.length - 1 := diffNZ_mem_lt hfd_mem
  have hld_lt : lastDefIdx p < p.length - 1 := diffNZ_mem_lt hld_mem
  have hfd_le_ld : firstDefIdx p ≤ lastDefIdx p := by
    unfold firstDefIdx lastDefIdx
    rw [headD_eq_getD, getLastD_eq_getD]
    rcases Nat.eq_or_lt_of_le (Nat.one_le_iff_ne_zero.mpr (by omega) :
        1 ≤ (diffNZ p).length) with heq | hlt
    · rw [show (diffNZ p).length - 1 = 0 by omega]
    · have hp2 := List.pairwise_iff_getElem.mp (diffNZ_pairwise p)
      rw [List.getD_eq_getElem _ _ (by omega), List.getD_eq_getElem _ _ (by omega)]
      exact (hp2 0 ((diffNZ p).length - 1) (by omega) (by omega) (by omega)).le
  have hcbp : ∀ i : Nat, i < x.length →
      (computeBeltPhase t x).getD i 0 = pymod ((edgeFill t p).getD i 0) 360 := by
    intro i hi
    unfold computeBeltPhase
    rw [← hp, List.getD_eq_getElem _ _ (by rw [List.length_map, edgeFill_length]; omega),
      List.getElem_map, List.getD_eq_getElem _ _ (by rw [edgeFill_length]; omega)]
  have hef : ∀ i : Nat, i < p.length → (edgeFill t p).getD i 0 =
      (if i < firstDefIdx p then
        npInterpDup (t.getD i 0) (t.getD (firstDefIdx p) 0)
          (pymod (p.getD (firstDefIdx p) 0 - 180) 360) (p.getD (firstDefIdx p) 0)
      else if lastDefIdx p ≤ i then
        npInterpDup (t.getD i 0) (t.getD (lastDefIdx p) 0)
          (p.getD (lastDefIdx p) 0) (pymod (p.getD (lastDefIdx p) 0 + 180) 360)
      else p.getD i 0) := by
    intro i hi
    unfold edgeFill
    rw [if_neg hne, rangeMap_getD _ _ _ hi]
  constructor
  · intro i hi
    have hin : i < x.length := by omega
    rw [hcbp i hin, hef i (by omega), if_pos hi]
    have htlt : t.getD i 0 < t.getD (firstDefIdx p) 0 :=
      chain_lt_getD ht hi (by omega)
    unfold npInterpDup
    rw [if_pos htlt, pymod_idem _ _ (by norm_num)]
  · intro i hgt hin
    rw [hcbp i hin, hef i (by omega), if_neg (by omega), if_pos (by omega)]
    have htgt : t.getD (lastDefIdx p) 0 < t.getD i 0 :=
      chain_lt_getD ht hgt (by omega)
    unfold npInterpDup
    rw [if_neg (by linarith), pymod_idem _ _ (by norm_num)]

/-- Witness for C8: on `t = [0..5]`, `x = [2,2,0,1,3,1]` the transitions span
indices `1..4`; sample `0` gets `(0 - 180) % 360 = 180` and sample `5` gets
`(90 + 180) % 360 = 270`. -/
theorem variantA_edge_extrapolation_witness :
    (computeBeltPhase [0, 1, 2, 3, 4, 5] [2, 2, 0, 1, 3, 1]).getD 0 0 = 180 ∧
    (computeBeltPhase [0, 1, 2, 3, 4, 5] [2, 2, 0, 1, 3, 1]).getD 5 0 = 270 := by
  constructor
  · exact ((variantA_edge_extrapolation [0, 1, 2, 3, 4, 5] [2, 2, 0, 1, 3, 1] (by decide)
      (by norm_num [List.chain'_cons, List.chain'_singleton]) (by decide)).1 0
      (by decide)).trans (by decide)
  · exact ((variantA_edge_extrapolation [0, 1, 2, 3, 4, 5] [2, 2, 0, 1, 3, 1] (by decide)
      (by norm_num [List.chain'_cons, List.chain'_singleton]) (by decide)).2 5
      (by decide) (by decide)).trans (by decide)

theorem writeTC_getD_of_lt (t : List ℚ) (crests : List Nat) (p : List ℚ) {tr i : Nat}
    (h : i < tr) : (writeTC t crests p tr).getD i 0 = p.getD i 0 := by
  unfold writeTC
  cases hfa : firstAfter crests tr with
  | none => rfl
  | some C =>
    by_cases hin : i < p.length
    · rw [rangeMap_getD _ _ _ hin, if_neg (by omega)]
    · rw [List.getD_eq_default _ _ (by simpa using Nat.le_of_not_lt hin),
        List.getD_eq_default _ _ (Nat.le_of_not_lt hin)]

theorem writeTC_getD_of_seg (t : List ℚ) (crests : List Nat) (p : List ℚ) {tr C i : Nat}
    (hfa : firstAfter crests tr = some C) (h1 : tr ≤ i) (h2 : i ≤ C) (hin : i < p.length) :
    (writeTC t crests p tr).getD i 0 = tcFormula t tr C i := by
  unfold writeTC
  rw [hfa]
  rw [rangeMap_getD _ _ _ hin, if_pos ⟨h1, h2⟩]

theorem foldl_writeTC_getD (t : List ℚ) (crests : List Nat) (troughs : List Nat)
    (p : List ℚ) (i : Nat) (h : ∀ tr2 ∈ troughs, i < tr2) :
    (troughs.foldl (writeTC t crests) p).getD i 0 = p.getD i 0 := by
  induction troughs generalizing p with
  | nil => rfl
  | cons a l ih =>
    rw [List.foldl_cons, ih _ fun tr2 htr2 => h tr2 (List.mem_cons_of_mem a htr2),
      writeTC_getD_of_lt t crests p (h a (List.mem_cons_self a l))]

/-- C2 (amended): for a trough `tr` whose first strictly-later crest is `C`,
with no other trough in `(tr, C]` (so no later iteration overwrites the
segment), the trough→crest pass assigns every sample of `[tr, C]` the phase
`(270 + elapsed-time fraction × 180) % 360` — a linear sweep over the wrapped
arc 270→360→90 whose delta is `+180` degrees, not `+120`. -/
theorem troughCrest_wrapped_arc (t : List ℚ) (troughs crests : List Nat) (p : List ℚ)
    (tr C : Nat) (hlen : t.length = p.length) (ht : List.Chain' (· < ·) t)
    (hsort : List.Pairwise (· < ·) troughs) (htr : tr ∈ troughs)
    (hC : firstAfter crests tr = some C)
    (hgap : ∀ tr2 ∈ troughs, tr < tr2 → C < tr2)
    (hCp : C < p.length) :
    ∀ i : Nat, tr ≤ i → i ≤ C →
      (troughCrestPass t troughs crests p).getD i 0 =
        pymod (270 + (t.getD i 0 - t.getD tr 0) * 180 / (t.getD C 0 - t.getD tr 0)) 360 := by
  intro i hi1 hi2
  have htrC : tr < C := by
    have hCmem : C ∈ crests.filter fun c => decide (tr < c) := by
      unfold firstAfter at hC
      exact List.mem_of_mem_head? hC
    simpa using (List.mem_filter.mp hCmem).2
  have hin : i < p.length := by omega
  obtain ⟨l1, l2, rfl⟩ := List.append_of_mem htr
  have hl2 : ∀ tr2 ∈ l2, i < tr2 := by
    intro tr2 htr2
    have hpair : List.Pairwise (· < ·) (tr :: l2) := (List.pairwise_append.mp hsort).2.1
    have h1 : tr < tr2 := List.rel_of_pairwise_cons hpair htr2
    have h2 : C < tr2 :=
      hgap tr2 (List.mem_append.mpr (Or.inr (List.mem_cons_of_mem tr htr2))) h1
    omega
  unfold troughCrestPass
  rw [List.foldl_append, List.foldl_cons, foldl_writeTC_getD t crests l2 _ i hl2]
  have hbase : (l1.foldl (writeTC t crests) p).length = p.length := by
    have h0 := troughCrestPass_length t l1 crests p
    unfold troughCrestPass at h0
    exact h0
  rw [writeTC_getD_of_seg t crests _ hC hi1 hi2 (by omega)]
  have hw : ((wrappedDiff : ℤ) : ℚ) = 180 := by
    have h180 : wrappedDiff = (180 : ℤ) := by decide
    rw [h180]
    norm_num
  have htt : t.getD tr 0 < t.getD C 0 := chain_lt_getD ht htrC (by omega)
  unfold tcFormula npInterp2
  rw [hw]
  have hxtr : ¬ (t.getD i 0 < t.getD tr 0) := not_lt.mpr (chain_le_getD ht hi1 (by omega))
  rw [if_neg hxtr]
  rcases Nat.eq_or_lt_of_le hi2 with rfl | hiC
  · rw [if_pos (le_refl _)]
    congr 1
    rw [mul_comm, mul_div_assoc, div_self (by linarith), mul_one]
  · have hxlt : t.getD i 0 < t.getD C 0 := chain_lt_getD ht hiC (by omega)
    rw [if_neg (not_le.mpr hxlt)]
    congr 1
    ring

/-- C2 counterexample: on `t = [0..4]`, `x = [2, 0, 1, 3, 1]` the trough is
index `1` and its first later crest index `3`.  At the time midpoint of the
segment (index `2`) Variant A produces phase `0` — consistent with a `+180`
wrapped delta, `(270 + 90) % 360` — while the claimed `+120` delta would give
`(270 + 60) % 360 = 330`. -/
theorem troughCrest_wrapped_arc_counterexample :
    findPeaksProm ([2, 0, 1, 3, 1].map fun v => -v) = [1] ∧
    findPeaksProm [2, 0, 1, 3, 1] = [3] ∧
    (computeBeltPhase [0, 1, 2, 3, 4] [2, 0, 1, 3, 1]).getD 2 0 = 0 ∧
    pymod (270 + 120 / 2) 360 = 330 ∧ (0 : ℚ) ≠ 330 := by
  refine ⟨by decide, by decide, by decide, by decide, by decide⟩

/-- Witness for C2 (amended): trough `1`, crest `3`, `t = [0..4]` — the
segment midpoint evaluates to `pymod (270 + 1 * 180 / 2) 360 = 0`. -/
theorem troughCrest_wrapped_arc_witness :
    (troughCrestPass [0, 1, 2, 3, 4] [1] [3] (List.replicate 5 0)).getD 2 0 = 0 :=
  (troughCrest_wrapped_arc [0, 1, 2, 3, 4] [1] [3] (List.replicate 5 0) 1 3
    (by decide) (by norm_num [List.chain'_cons, List.chain'_singleton]) (by decide)
    (by decide) (by decide) (by decide) (by decide) 2 (by decide) (by decide)).trans
    (by decide)
